import Mathlib

/-!
Verification of the break-report core of `backend/src/server.js`
(`/api/break-report`): event normalization, door/direction filtering,
per-user in/out session pairing, anti-passback (APB) violation collection,
duration labelling, threshold-based inclusion and final ordering.

The JavaScript code is shallowly embedded: JS strings are `String`,
optional/`undefined`/`null` string fields are `Option String` (with JS
truthiness: the empty string is falsy), and timestamps are the result of
luxon's `DateTime.fromISO(..).setZone(tz)` represented by `Option Int`
(milliseconds since epoch; `none` stands for an invalid `DateTime`, i.e.
the ISO-8601 string failed to parse, whose `toMillis()` is `NaN`).
Arithmetic on possibly-`NaN` quantities is modelled on `Option`, with
`none` absorbing exactly as `NaN` does in JS.
-/

namespace Breakroom

/-- JS truthiness for an optional string: `undefined`, `null` and `""` are
falsy; `toTruthy` maps a falsy value to `none`. -/
def toTruthy : Option String → Option String
  | some s => if s = "" then none else some s
  | none => none

/-- JS `a || b` where `b` is a plain string (models e.g.
`info.userId || 'unknown'`). -/
def jsOr (a : Option String) (b : String) : String :=
  (toTruthy a).getD b

/-- JS `a || b` where both sides are optional (models e.g.
`info.doorId || e.device_id`). -/
def jsOrOpt (a b : Option String) : Option String :=
  match toTruthy a with
  | some s => some s
  | none => toTruthy b

/-- ASCII lower-casing of one character, as `String.prototype.toLowerCase`
acts on the ASCII range (all direction strings handled by the code are
ASCII). -/
def lowerChar (c : Char) : Char :=
  if 65 ≤ c.toNat ∧ c.toNat ≤ 90 then Char.ofNat (c.toNat + 32) else c

/-- ASCII upper-casing of one character (`String.prototype.toUpperCase`). -/
def upperChar (c : Char) : Char :=
  if 97 ≤ c.toNat ∧ c.toNat ≤ 122 then Char.ofNat (c.toNat - 32) else c

/-- `s.toLowerCase()` on ASCII strings. -/
def lowerStr (s : String) : String :=
  ⟨s.data.map lowerChar⟩

/-- `r.charAt(0).toUpperCase() + r.slice(1)`. -/
def capitalizeStr (s : String) : String :=
  match s.data with
  | [] => ""
  | c :: rest => ⟨upperChar c :: rest⟩

/-- `s.startsWith(pre)` (code-unit prefix test). -/
def strStartsWith (s pre : String) : Bool :=
  pre.data.isPrefixOf s.data

/-- JS `String.prototype.replace` with a *string* pattern: replaces only the
first occurrence. -/
def replaceFirstL (pat repl : List Char) : List Char → List Char
  | [] => []
  | c :: rest =>
    if pat.isPrefixOf (c :: rest) then repl ++ (c :: rest).drop pat.length
    else c :: replaceFirstL pat repl rest

/-- `.replace(/_/g, ' ')`: every underscore becomes a space. -/
def underscoresToSpaces (s : String) : String :=
  ⟨s.data.map (fun c => if c = '_' then ' ' else c)⟩

/-- `normalizeDirection` from server.js: maps an optional raw direction
string to `(norm, label)` via the synonym table
in/entry/entrance → in, out/exit/egress → out, with falsy input giving
`(unknown, Unknown)` and anything else passing through lower-cased with a
capitalized label. -/
def normalizeDirection (raw : Option String) : String × String :=
  match toTruthy raw with
  | none => ("unknown", "Unknown")
  | some s =>
    let r := lowerStr s
    if r = "in" ∨ r = "entry" ∨ r = "entrance" then ("in", "Inbound")
    else if r = "out" ∨ r = "exit" ∨ r = "egress" then ("out", "Outbound")
    else (r, capitalizeStr r)

/-- `Math.round(ms / 60000)` for a nonnegative millisecond count: the
nearest whole number of minutes, halves rounding up. -/
def nearestMinute (ms : Nat) : Nat :=
  (2 * ms + 60000) / 120000

/-- `msToHMM` from server.js, on an exact (`some`) or `NaN` (`none`)
millisecond count. JS on `NaN`: `Math.round(NaN)` is `NaN`, `NaN > 0` is
false, and the template renders `"NaNm"`. -/
def msToHMM (ms : Option Nat) : String :=
  match ms with
  | none => "NaNm"
  | some v =>
    let totalMinutes := nearestMinute v
    let h := totalMinutes / 60
    let m := totalMinutes % 60
    if h > 0 then toString h ++ "h " ++ toString m ++ "m"
    else toString m ++ "m"

/-- The fields of a raw vendor event's `event_info` block read by the
code; absent fields are `none`. `userInfoUserId` and `userInfoName` stand
for `info.userInfo?.userId` and `info.userInfo?.name`. -/
structure EventInfo where
  doorId : Option String
  direction : Option String
  message : Option String
  userId : Option String
  userInfoUserId : Option String
  userName : Option String
  userInfoName : Option String
  siteName : Option String
  doorInfoName : Option String
deriving DecidableEq, Repr

/-- An `EventInfo` with every field absent (JS `{}`). -/
def emptyInfo : EventInfo :=
  ⟨none, none, none, none, none, none, none, none, none⟩

/-- A raw vendor access event, restricted to the fields server.js reads.
`tsParsed` is the outcome of
`DateTime.fromISO(e.timestamp, {zone:'utc'}).setZone(tz)` in epoch
milliseconds; `none` means the ISO-8601 `timestamp` string failed to
parse (luxon invalid `DateTime`). -/
structure RawEvent where
  event_id : String
  event_type : Option String
  event_info : Option EventInfo
  device_id : Option String
  tsParsed : Option Int
deriving DecidableEq, Repr

/-- Door metadata used as normalization fallback: `door.name` and
`door.site?.name`. -/
structure DoorMeta where
  name : Option String
  siteName : Option String
deriving DecidableEq, Repr

/-- A normalized event (the object built by the `.map` step of the
`/api/break-report` filter chain). `ts` is `none` when the raw timestamp
failed to parse (invalid `DateTime`, `toMillis() = NaN`). -/
structure NEvent where
  event_id : String
  event_type : String
  violationMessage : Option String
  ts : Option Int
  userId : String
  userName : String
  siteName : String
  direction : String
  directionLabel : String
  doorName : String
deriving DecidableEq, Repr

/-- `info.doorId || e.device_id || null`, the door identifier the first
filter compares against the requested `door_id`. -/
def eventDoorId (e : RawEvent) : Option String :=
  jsOrOpt ((e.event_info.getD emptyInfo).doorId) e.device_id

/-- The `.map` step: build a `NEvent` from a raw event and the selected
door's metadata (the code's formatted date/time strings are derived from
`ts` by luxon and are not re-modelled; `ts` itself is kept). -/
def normalizeEvent (dm : DoorMeta) (e : RawEvent) : NEvent :=
  let info := e.event_info.getD emptyInfo
  let nl := normalizeDirection info.direction
  { event_id := e.event_id
    event_type := jsOr e.event_type ""
    violationMessage := toTruthy info.message
    ts := e.tsParsed
    userId := jsOr info.userId (jsOr info.userInfoUserId "unknown")
    userName := jsOr info.userName (jsOr info.userInfoName "Unknown User")
    siteName := jsOr info.siteName (jsOr dm.siteName "Unknown Site")
    direction := nl.1
    directionLabel := nl.2
    doorName := jsOr info.doorInfoName (jsOr dm.name "Door") }

/-- The direction/APB retention test of the second `.filter`:
`e.direction === 'in' || e.direction === 'out' ||
(e.event_type || '').startsWith('DOOR_APB_')`. -/
def keepDirOrAPB (e : NEvent) : Bool :=
  e.direction == "in" || e.direction == "out" || strStartsWith e.event_type "DOOR_APB_"

/-- The `/api/break-report` event filter (steps before the timestamp
sort): keep raw events whose door identifier equals the requested
`door_id`, normalize them, then keep only in/out-directed or APB-typed
events. -/
def eventFilter (door_id : String) (dm : DoorMeta) (raws : List RawEvent) : List NEvent :=
  ((raws.filter (fun e => eventDoorId e == some door_id)).map (normalizeEvent dm)).filter
    keepDirOrAPB

/-- `(ev.event_type || '').startsWith('DOOR_APB_')` on a normalized event
(whose `event_type` is already defaulted to `""`). -/
def isAPB (e : NEvent) : Bool :=
  strStartsWith e.event_type "DOOR_APB_"

/-- A violation row as pushed by the pairing loop; `sourceEvent` keeps the
normalized event the row was built from (its `ts` is what the code's
`date`/`time` strings are formatted from). -/
structure ViolationRec where
  sourceEvent : NEvent
  message : String
  event_type : String
deriving DecidableEq, Repr

/-- The violation row for an APB-typed event: message is
`ev.violationMessage || ev.event_type.replace('DOOR_APB_','').replace(/_/g,' ')`. -/
def mkViolation (ev : NEvent) : ViolationRec :=
  { sourceEvent := ev
    message := jsOr ev.violationMessage
      (underscoresToSpaces ⟨replaceFirstL "DOOR_APB_".data [] ev.event_type.data⟩)
    event_type := ev.event_type }

/-- `Math.max(0, second.ts.toMillis() - first.ts.toMillis())`: `none`
(`NaN`) when either timestamp is invalid, since both subtraction and
`Math.max` propagate `NaN`. -/
def durMs (outTs inTs : Option Int) : Option Nat :=
  match outTs, inTs with
  | some b, some a => some (max 0 (b - a)).toNat
  | _, _ => none

/-- A session pair. The code stores luxon-formatted `date`/`time`/location
strings for both ends; we keep the two normalized events they are
formatted from, plus the computed duration and its label. -/
structure PairRec where
  userId : String
  userName : String
  siteName : String
  inEv : NEvent
  outEv : NEvent
  totalMs : Option Nat
  totalLabel : String
deriving DecidableEq, Repr

/-- The pair pushed for `lastInbound = first` and out-event `second`. -/
def mkPair (userId : String) (first second : NEvent) : PairRec :=
  { userId := userId
    userName := jsOr (some first.userName) second.userName
    siteName := jsOr (some first.siteName) second.siteName
    inEv := first
    outEv := second
    totalMs := durMs second.ts first.ts
    totalLabel := msToHMM (durMs second.ts first.ts) }

/-- The mutable state of the pairing loop for one user: the last unmatched
inbound event and the accumulated pair and violation rows. -/
structure PairState where
  lastInbound : Option NEvent
  pairs : List PairRec
  violations : List ViolationRec
deriving DecidableEq, Repr

/-- The body of `for (const ev of evs)` in the pairing loop: an APB-typed
event appends a violation row (without touching `lastInbound`); an `in`
event overwrites `lastInbound`; an `out` event pairs with `lastInbound`
when set and is otherwise ignored. -/
def stepPair (userId : String) (st : PairState) (ev : NEvent) : PairState :=
  let st1 := if isAPB ev then { st with violations := st.violations ++ [mkViolation ev] } else st
  if ev.direction = "in" then
    { st1 with lastInbound := some ev }
  else if ev.direction = "out" then
    match st1.lastInbound with
    | some first =>
      { st1 with pairs := st1.pairs ++ [mkPair userId first ev], lastInbound := none }
    | none => st1
  else st1

/-- The whole pairing loop over one user's (chronologically sorted) event
list, from the initial state `lastInbound = null`, `pairs = []`,
`violations = []`. -/
def runPair (userId : String) (evs : List NEvent) : PairState :=
  evs.foldl (stepPair userId) ⟨none, [], []⟩

/-- `pairs.reduce((sum, p) => sum + p.totalMs, 0)`: `NaN` (`none`)
absorbs. -/
def sumTotalMs (ps : List PairRec) : Option Nat :=
  ps.foldl (fun s p => match s, p.totalMs with
    | some x, some y => some (x + y)
    | _, _ => none) (some 0)

/-- JS `a >= b` where `a` may be `NaN` (`none`): `NaN >= b` is false. -/
def jsGe (a : Option Nat) (b : Int) : Bool :=
  match a with
  | some x => decide ((x : Int) ≥ b)
  | none => false

/-- One row of the final `users` array. -/
structure UserReport where
  userId : String
  userName : String
  siteName : String
  totalMs : Option Nat
  totalLabel : String
  pairs : List PairRec
  violations : List ViolationRec
deriving DecidableEq, Repr

/-- Per-user aggregation: run the pairing loop, total the pair durations,
and include the user iff `totalMs >= minMinutes * 60 * 1000` or
`violations.length > 0`. -/
def buildUserReport (minMinutes : Int) (userId : String) (evs : List NEvent) :
    Option UserReport :=
  let st := runPair userId evs
  let totalMs := sumTotalMs st.pairs
  if jsGe totalMs (minMinutes * 60 * 1000) || decide (st.violations.length > 0) then
    some { userId := userId
           userName := jsOr (st.pairs.head?.map (·.userName))
             (jsOr (evs.head?.map (·.userName)) "Unknown User")
           siteName := jsOr (st.pairs.head?.map (·.siteName))
             (jsOr (evs.head?.map (·.siteName)) "Unknown Site")
           totalMs := totalMs
           totalLabel := msToHMM totalMs
           pairs := st.pairs
           violations := st.violations }
  else none

/-- Aggregation over the per-user groups in insertion order (the iteration
order of the `byUser` map). -/
def buildResults (minMinutes : Int) (groups : List (String × List NEvent)) :
    List UserReport :=
  groups.filterMap (fun g => buildUserReport minMinutes g.1 g.2)

/-- The value of the final sort's comparator
`(a, b) => { if (b.totalMs !== a.totalMs) return b.totalMs - a.totalMs;
return (b.violations?.length || 0) - (a.violations?.length || 0); }`,
after the ECMAScript rule that a `NaN` comparator result counts as `+0`:
whenever either total is `NaN`, `b.totalMs !== a.totalMs` holds and the
subtraction yields `NaN`, hence `0`. -/
def userCmp (a b : UserReport) : Int :=
  match a.totalMs, b.totalMs with
  | some x, some y =>
    if x ≠ y then (y : Int) - (x : Int)
    else (b.violations.length : Int) - (a.violations.length : Int)
  | _, _ => 0

/-- `a` sorts no later than `b`: comparator value ≤ 0. -/
def userLe (a b : UserReport) : Bool :=
  decide (userCmp a b ≤ 0)

/-- Stable insertion: place `a` before the first element it need not
follow. Combined with `sortResults`' right fold this reproduces the
stable sort `Array.prototype.sort` performs with the code's comparator. -/
def insUser (a : UserReport) : List UserReport → List UserReport
  | [] => [a]
  | b :: l => if userLe a b then a :: b :: l else b :: insUser a l

/-- `results.sort(comparator)` as a stable sort. -/
def sortResults (rs : List UserReport) : List UserReport :=
  rs.foldr insUser []

/-- The two sort keys of a user row: total milliseconds and violation
count. -/
def keyOf (r : UserReport) : Option Nat × Nat :=
  (r.totalMs, r.violations.length)

/-- `Number.isFinite(Number(min_minutes)) ? Number(min_minutes) : 45`.
The argument is `some n` when the query parameter converts to the finite
number `n`, `none` when it is absent or converts to `NaN`/`±Infinity`
(integral thresholds modelled). -/
def resolveMinMinutes (raw : Option Int) : Int :=
  raw.getD 45

/-- The report fields of the `/api/break-report` response that depend on
the threshold and the per-user groups. -/
structure ReportResponse where
  min_minutes : Int
  users : List UserReport
deriving DecidableEq, Repr

/-- Build the response: resolve the threshold, aggregate each group, sort,
and echo the resolved threshold in `min_minutes`. -/
def buildBreakReport (rawMinMinutes : Option Int)
    (groups : List (String × List NEvent)) : ReportResponse :=
  let m := resolveMinMinutes rawMinMinutes
  { min_minutes := m
    users := sortResults (buildResults m groups) }

/-! Concrete fixtures used by counterexamples and witnesses. -/

/-- Metadata of the requested door used by the fixtures. -/
def demoDoor : DoorMeta :=
  { name := some "Break Room Door", siteName := some "HQ" }

/-- A raw APB-typed event reported against a *different* door
(`doorId = "door-2"`) than the requested `"door-1"`. -/
def rawApbOtherDoor : RawEvent :=
  { event_id := "e-apb-2"
    event_type := some "DOOR_APB_ENTRY"
    event_info := some { emptyInfo with
      doorId := some "door-2"
      direction := some "in"
      userId := some "u1"
      userName := some "Ann Lee" }
    device_id := none
    tsParsed := some 1000000 }

/-- A raw event on the requested door whose ISO-8601 timestamp failed to
parse (`tsParsed = none`, luxon invalid `DateTime`). -/
def rawBadTimestamp : RawEvent :=
  { event_id := "e-bad-ts"
    event_type := some "DOOR_ACCESS_GRANTED"
    event_info := some { emptyInfo with
      doorId := some "door-1"
      direction := some "in"
      userId := some "u1"
      userName := some "Ann Lee" }
    device_id := none
    tsParsed := none }

/-- A well-formed raw `out` event on the requested door, after
`rawBadTimestamp`. -/
def rawGoodOut : RawEvent :=
  { event_id := "e-good-out"
    event_type := some "DOOR_ACCESS_GRANTED"
    event_info := some { emptyInfo with
      doorId := some "door-1"
      direction := some "out"
      userId := some "u1"
      userName := some "Ann Lee" }
    device_id := none
    tsParsed := some 2000000 }

/-- A normalized in-directed event at time `t` for user `u1`. -/
def nInEv (id : String) (t : Int) : NEvent :=
  { event_id := id
    event_type := "DOOR_ACCESS_GRANTED"
    violationMessage := none
    ts := some t
    userId := "u1"
    userName := "Ann Lee"
    siteName := "HQ"
    direction := "in"
    directionLabel := "Inbound"
    doorName := "Break Room Door" }

/-- A normalized out-directed event at time `t` for user `u1`. -/
def nOutEv (id : String) (t : Int) : NEvent :=
  { event_id := id
    event_type := "DOOR_ACCESS_GRANTED"
    violationMessage := none
    ts := some t
    userId := "u1"
    userName := "Ann Lee"
    siteName := "HQ"
    direction := "out"
    directionLabel := "Outbound"
    doorName := "Break Room Door" }

/-- A normalized APB-typed event that is *also* in-directed (the vendor
reports a direction on the anti-passback event). -/
def nApbInEv (t : Int) : NEvent :=
  { nInEv "e-apb-in" t with
    event_type := "DOOR_APB_DOUBLE_ENTRY"
    violationMessage := some "Double entry detected" }

/-- A normalized APB-typed event with no usable direction. -/
def nApbOnlyEv (t : Int) : NEvent :=
  { nInEv "e-apb-only" t with
    event_type := "DOOR_APB_DOUBLE_ENTRY"
    violationMessage := some "Double entry detected"
    direction := "unknown"
    directionLabel := "Unknown" }

/-- A user row with total 3600000 ms and no violations. -/
def userRowA : UserReport :=
  { userId := "uA"
    userName := "A"
    siteName := "HQ"
    totalMs := some 3600000
    totalLabel := "1h 0m"
    pairs := []
    violations := [] }

/-- A user row with total 3600000 ms and two violations. -/
def userRowB : UserReport :=
  { userId := "uB"
    userName := "B"
    siteName := "HQ"
    totalMs := some 3600000
    totalLabel := "1h 0m"
    pairs := []
    violations := [mkViolation (nApbOnlyEv 100), mkViolation (nApbOnlyEv 200)] }

/-- The timestamp of an event whose `ts` is known valid. -/
def tsVal (e : NEvent) : Int :=
  e.ts.getD 0

/-- A well-formed session pair: both timestamps parsed, the out end is no
earlier than the in end, and the stored duration is
`max 0 (out − in)` milliseconds. -/
def GoodPair (p : PairRec) : Prop :=
  ∃ a b : Int, p.inEv.ts = some a ∧ p.outEv.ts = some b ∧ a ≤ b ∧
    p.totalMs = some (max 0 (b - a)).toNat

/-! ## Theorems -/

/-- Claim C1 counterexample: an APB-typed event whose door identifier
(`door-2`) differs from the requested door (`door-1`) is *not* retained by
the event filter — the first `.filter` already requires a door-id match,
so the output is empty where the claim requires the event to be kept. -/
theorem apb_foreign_door_dropped :
    eventFilter "door-1" demoDoor [rawApbOtherDoor] = [] ∧
    strStartsWith (jsOr rawApbOtherDoor.event_type "") "DOOR_APB_" = true ∧
    eventDoorId rawApbOtherDoor ≠ some "door-1" := by
  refine ⟨by decide, by decide, by decide⟩

/-- Claim C1 (amended): the event filter returns a subsequence of the
normalized events, in original relative order, retaining exactly those
events whose door identifier matches the target door AND whose direction
is `in`/`out` or whose event type starts with `DOOR_APB_`; an APB-typed
event on a different door is dropped by the door-id test. -/
theorem eventFilter_spec (door : String) (dm : DoorMeta) (raws : List RawEvent) :
    List.Sublist (eventFilter door dm raws) (raws.map (normalizeEvent dm)) ∧
    (∀ x, x ∈ eventFilter door dm raws ↔
      ∃ e, e ∈ raws ∧ eventDoorId e = some door ∧ x = normalizeEvent dm e ∧
        (x.direction = "in" ∨ x.direction = "out" ∨
          strStartsWith x.event_type "DOOR_APB_" = true)) := by
  constructor
  · exact (List.filter_sublist _).trans ((List.filter_sublist raws).map (normalizeEvent dm))
  · intro x
    simp only [eventFilter, List.mem_filter, List.mem_map, keepDirOrAPB,
      Bool.or_eq_true, beq_iff_eq]
    constructor
    · rintro ⟨⟨e, ⟨he, hdoor⟩, rfl⟩, hkeep⟩
      exact ⟨e, he, hdoor, rfl, by tauto⟩
    · rintro ⟨e, he, hdoor, rfl, hkeep⟩
      exact ⟨⟨e, ⟨he, hdoor⟩, rfl⟩, by tauto⟩

/-- Claim C2 (code bug): a raw event on the requested door whose ISO-8601
timestamp fails to parse is *not* dropped by the normalization/filter
chain — it survives with an invalid timestamp (`ts = none`, i.e. a luxon
invalid `DateTime` whose `toMillis()` is `NaN`), and downstream it even
becomes the in-event of a session pair whose duration is `NaN`. -/
theorem malformed_timestamp_not_dropped :
    (normalizeEvent demoDoor rawBadTimestamp).ts = none ∧
    normalizeEvent demoDoor rawBadTimestamp ∈
      eventFilter "door-1" demoDoor [rawBadTimestamp, rawGoodOut] ∧
    (eventFilter "door-1" demoDoor [rawBadTimestamp, rawGoodOut]).length = 2 ∧
    (runPair "u1" (eventFilter "door-1" demoDoor [rawBadTimestamp, rawGoodOut])).pairs.length
      = 1 ∧
    (∀ p ∈ (runPair "u1"
        (eventFilter "door-1" demoDoor [rawBadTimestamp, rawGoodOut])).pairs,
      p.inEv = normalizeEvent demoDoor rawBadTimestamp ∧ p.totalMs = none) := by
  refine ⟨by decide, by decide, by decide, by decide, by decide⟩

/-- Claim C3 counterexample: 90000 ms is 1.5 minutes, so `msToHMM` yields
`"2m"` (`Math.round(1.5) = 2`), not `"1h 30m"` as the claim states. -/
theorem msToHMM_90000_counterexample :
    msToHMM (some 90000) = "2m" ∧ ("2m" : String) ≠ "1h 30m" := by
  refine ⟨by decide, by decide⟩

/-- Claim C3 (amended): `msToHMM` formats a millisecond duration as whole
hours plus remaining minutes, rounding to the nearest minute (halves up)
and omitting the hour component for results under one hour; in particular
90000 ms → `"2m"` (not `"1h 30m"`), 0 ms → `"0m"`, 59000 ms → `"1m"`,
3600000 ms → `"1h 0m"` and 5400000 ms → `"1h 30m"`. -/
theorem msToHMM_spec :
    (∀ h m : Nat, m < 60 → 0 < h →
      msToHMM (some ((h * 60 + m) * 60000)) = toString h ++ "h " ++ toString m ++ "m") ∧
    (∀ m : Nat, m < 60 → msToHMM (some (m * 60000)) = toString m ++ "m") ∧
    (∀ q r : Nat, r < 60000 →
      nearestMinute (60000 * q + r) = if 30000 ≤ r then q + 1 else q) ∧
    msToHMM (some 90000) = "2m" ∧ msToHMM (some 0) = "0m" ∧
    msToHMM (some 59000) = "1m" ∧ msToHMM (some 3600000) = "1h 0m" ∧
    msToHMM (some 5400000) = "1h 30m" := by
  refine ⟨?_, ?_, ?_, by decide, by decide, by decide, by decide, by decide⟩
  · intro h m hm hh
    have h1 : nearestMinute ((h * 60 + m) * 60000) = h * 60 + m := by
      simp only [nearestMinute]; omega
    have h2 : (h * 60 + m) / 60 = h := by omega
    have h3 : (h * 60 + m) % 60 = m := by omega
    simp only [msToHMM, h1, h2, h3, if_pos hh]
  · intro m hm
    have h1 : nearestMinute (m * 60000) = m := by
      simp only [nearestMinute]; omega
    have h2 : ¬ (m / 60 > 0) := by omega
    have h3 : m % 60 = m := by omega
    simp only [msToHMM, h1, h2, h3, if_neg h2, if_false]
  · intro q r hr
    simp only [nearestMinute]
    split <;> omega

/-- Witness for the amended C3 theorem at concrete inputs. -/
theorem msToHMM_spec_witness :
    msToHMM (some ((1 * 60 + 30) * 60000)) = toString 1 ++ "h " ++ toString 30 ++ "m" ∧
    msToHMM (some (12 * 60000)) = toString 12 ++ "m" ∧
    nearestMinute (60000 * 0 + 59000) = 0 + 1 :=
  ⟨msToHMM_spec.1 1 30 (by decide) (by decide),
   msToHMM_spec.2.1 12 (by decide),
   by rw [msToHMM_spec.2.2.1 0 59000 (by decide)]; decide⟩

/-- Claim C4 (code bug): an APB-typed event that also carries direction
`in` both records its violation *and* is stored as `lastInbound`, so a
following `out` event emits a session pair whose in-event is the
APB-typed event — contradicting "APB entries are NOT paired". -/
theorem apb_event_gets_paired :
    isAPB (nApbInEv 1000) = true ∧
    (runPair "u1" [nApbInEv 1000, nOutEv "e2" 5000]).violations
      = [mkViolation (nApbInEv 1000)] ∧
    (runPair "u1" [nApbInEv 1000, nOutEv "e2" 5000]).pairs
      = [mkPair "u1" (nApbInEv 1000) (nOutEv "e2" 5000)] ∧
    (mkPair "u1" (nApbInEv 1000) (nOutEv "e2" 5000)).inEv = nApbInEv 1000 := by
  refine ⟨by decide, by decide, by decide, by decide⟩

/-- Claim C9: an `out` event arriving with no unmatched `in` pending
leaves the emitted pairs and the pending-in slot unchanged (no pair, no
error), and — when the event is not APB-classified — leaves the entire
pairing state untouched. -/
theorem out_without_pending_in (uid : String) (st : PairState) (ev : NEvent)
    (hdir : ev.direction = "out") (hnone : st.lastInbound = none) :
    ((stepPair uid st ev).pairs = st.pairs ∧
      (stepPair uid st ev).lastInbound = none) ∧
    (isAPB ev = false → stepPair uid st ev = st) := by
  have hne : ev.direction ≠ "in" := by rw [hdir]; decide
  constructor
  · cases hAPB : isAPB ev <;>
      simp [stepPair, hAPB, hdir, hne, hnone]
  · intro hAPB
    simp [stepPair, hAPB, hdir, hne, hnone]

/-- Witness for C9: a lone out-event against the empty pairing state. -/
theorem out_without_pending_in_witness :
    ((stepPair "u1" ⟨none, [], []⟩ (nOutEv "w" 5)).pairs = ([] : List PairRec) ∧
      (stepPair "u1" ⟨none, [], []⟩ (nOutEv "w" 5)).lastInbound = none) ∧
    (isAPB (nOutEv "w" 5) = false → stepPair "u1" ⟨none, [], []⟩ (nOutEv "w" 5)
      = ⟨none, [], []⟩) :=
  out_without_pending_in "u1" ⟨none, [], []⟩ (nOutEv "w" 5) (by decide) rfl

/-- Claim C10: with `min_minutes` absent or not converting to a finite
number, the threshold defaults to 45 minutes, the user list is computed
with that threshold, and the threshold actually used is echoed in the
response's `min_minutes` field. -/
theorem default_min_minutes (groups : List (String × List NEvent)) :
    (buildBreakReport none groups).min_minutes = 45 ∧
    (buildBreakReport none groups).users
      = sortResults (buildResults (buildBreakReport none groups).min_minutes groups) ∧
    (∀ raw, (buildBreakReport raw groups).min_minutes = resolveMinMinutes raw) := by
  refine ⟨rfl, rfl, fun raw => rfl⟩

/-- An in-directed event overwrites `lastInbound` and leaves the emitted
pairs unchanged, whether or not it is APB-typed. -/
theorem stepPair_in (uid : String) (st : PairState) (ev : NEvent)
    (h : ev.direction = "in") :
    (stepPair uid st ev).pairs = st.pairs ∧
    (stepPair uid st ev).lastInbound = some ev := by
  cases hAPB : isAPB ev <;> simp [stepPair, h, hAPB]

/-- Folding the pairing step over a run of in-directed events emits no
pair and leaves the last of them (or the previous pending-in when the run
is empty) as `lastInbound`. -/
theorem foldl_all_in (uid : String) :
    ∀ (ins : List NEvent) (st : PairState),
    (∀ e ∈ ins, e.direction = "in") →
    (ins.foldl (stepPair uid) st).pairs = st.pairs ∧
    (ins.foldl (stepPair uid) st).lastInbound = ins.getLast?.or st.lastInbound := by
  intro ins
  induction ins with
  | nil => intro st _; exact ⟨rfl, rfl⟩
  | cons a rest ih =>
    intro st h
    have ha : a.direction = "in" := h a (by simp)
    have hrest : ∀ e ∈ rest, e.direction = "in" := fun e he => h e (by simp [he])
    obtain ⟨hsp, hsl⟩ := stepPair_in uid st a ha
    rw [List.foldl_cons]
    obtain ⟨p1, p2⟩ := ih (stepPair uid st a) hrest
    refine ⟨by rw [p1, hsp], ?_⟩
    rw [p2, hsl]
    cases rest with
    | nil => simp
    | cons b t =>
      have : (b :: t).getLast?.isSome := by
        rw [List.getLast?_isSome]; simp
      obtain ⟨l, hl⟩ := Option.isSome_iff_exists.mp this
      simp [List.getLast?_cons_cons, hl]

/-- Claim C5: a run of at least two consecutive in-directed events with no
intervening out, followed by one out-directed event, yields exactly one
pair, formed from the *last* of the in events; the earlier unmatched ins
are silently superseded and never emitted. -/
theorem most_recent_in_wins (uid : String) (ins : List NEvent) (o l : NEvent)
    (hlen : 2 ≤ ins.length) (hin : ∀ e ∈ ins, e.direction = "in")
    (hout : o.direction = "out") (hlast : ins.getLast? = some l) :
    (runPair uid (ins ++ [o])).pairs = [mkPair uid l o] := by
  unfold runPair
  rw [List.foldl_append]
  obtain ⟨p1, p2⟩ := foldl_all_in uid ins ⟨none, [], []⟩ hin
  rw [hlast] at p2
  simp only [Option.or] at p2
  have hne : o.direction ≠ "in" := by rw [hout]; decide
  rw [List.foldl_cons, List.foldl_nil]
  cases hAPB : isAPB o <;>
    simp [stepPair, hAPB, hout, hne, p2, p1]

/-- Witness for C5: two consecutive ins then one out give exactly the pair
built from the second in. -/
theorem most_recent_in_wins_witness :
    (runPair "u1" ([nInEv "a" 10, nInEv "b" 20] ++ [nOutEv "c" 30])).pairs
      = [mkPair "u1" (nInEv "b" 20) (nOutEv "c" 30)] :=
  most_recent_in_wins "u1" [nInEv "a" 10, nInEv "b" 20] (nOutEv "c" 30) (nInEv "b" 20)
    (by decide) (by decide) (by decide) (by decide)

/-- Claim C7: a user appears in the report iff the summed pair duration
passes `minMinutes * 60 * 1000` or the violation list is non-empty; in
particular a user with zero paired time and one violation is included
with total label `"0m"`. -/
theorem user_inclusion :
    (∀ (m : Int) (uid : String) (evs : List NEvent),
      (buildUserReport m uid evs).isSome = true ↔
        (jsGe (sumTotalMs (runPair uid evs).pairs) (m * 60 * 1000) = true ∨
          (runPair uid evs).violations ≠ [])) ∧
    (buildUserReport 45 "u1" [nApbOnlyEv 100]).map
      (fun r => (r.totalMs, r.totalLabel, r.pairs, r.violations.length))
      = some (some 0, "0m", [], 1) := by
  refine ⟨?_, by decide⟩
  intro m uid evs
  have base : (buildUserReport m uid evs).isSome = true ↔
      (jsGe (sumTotalMs (runPair uid evs).pairs) (m * 60 * 1000)
        || decide ((runPair uid evs).violations.length > 0)) = true := by
    simp only [buildUserReport]
    split <;> simp_all
  rw [base, Bool.or_eq_true, decide_eq_true_iff]
  simp only [gt_iff_lt, List.length_pos]

/-- Shape of one pairing step: either the emitted pairs are unchanged and
`lastInbound` becomes the current event or stays as it was, or the event
is out-directed with a pending in `f` and exactly the pair `f → ev` is
appended while `lastInbound` clears. -/
theorem stepPair_shape (uid : String) (st : PairState) (ev : NEvent) :
    ((stepPair uid st ev).pairs = st.pairs ∧
      ((stepPair uid st ev).lastInbound = some ev ∨
        (stepPair uid st ev).lastInbound = st.lastInbound)) ∨
    (∃ f, ev.direction = "out" ∧ st.lastInbound = some f ∧
      (stepPair uid st ev).pairs = st.pairs ++ [mkPair uid f ev] ∧
      (stepPair uid st ev).lastInbound = none) := by
  by_cases hin : ev.direction = "in"
  · left
    cases hAPB : isAPB ev <;> simp [stepPair, hin, hAPB]
  · by_cases hout : ev.direction = "out"
    · cases hLI : st.lastInbound with
      | none =>
        left
        cases hAPB : isAPB ev <;> simp [stepPair, hin, hout, hAPB, hLI]
      | some f =>
        right
        refine ⟨f, hout, rfl, ?_, ?_⟩ <;>
          cases hAPB : isAPB ev <;> simp [stepPair, hin, hout, hAPB, hLI]
    · left
      cases hAPB : isAPB ev <;> simp [stepPair, hin, hout, hAPB]

/-- Invariant of the pairing fold over a chronologically sorted,
valid-timestamp event list: the pair count grows by at most the number of
out-directed events, and every new pair is well formed (`GoodPair`),
provided any pending in predates the remaining events. -/
theorem runPair_fold_invariant (uid : String) :
    ∀ (evs : List NEvent) (st : PairState),
    (∀ e ∈ evs, e.ts ≠ none) →
    evs.Pairwise (fun a b => tsVal a ≤ tsVal b) →
    (∀ f, st.lastInbound = some f → f.ts ≠ none ∧ ∀ x ∈ evs, tsVal f ≤ tsVal x) →
    (evs.foldl (stepPair uid) st).pairs.length ≤
      st.pairs.length + (evs.filter (fun e => e.direction == "out")).length ∧
    (∀ p ∈ (evs.foldl (stepPair uid) st).pairs, p ∈ st.pairs ∨ GoodPair p) := by
  intro evs
  induction evs with
  | nil =>
    intro st _ _ _
    exact ⟨by simp, fun p hp => Or.inl hp⟩
  | cons ev rest ih =>
    intro st hvalid hsorted hinv
    have hvEv : ev.ts ≠ none := hvalid ev (by simp)
    have hvRest : ∀ e ∈ rest, e.ts ≠ none := fun e he => hvalid e (by simp [he])
    have hevLe : ∀ x ∈ rest, tsVal ev ≤ tsVal x := (List.pairwise_cons.mp hsorted).1
    have hsRest : rest.Pairwise (fun a b => tsVal a ≤ tsVal b) :=
      (List.pairwise_cons.mp hsorted).2
    rw [List.foldl_cons]
    rcases stepPair_shape uid st ev with ⟨hpairs, hlast⟩ | ⟨f, hout, hLI, hpairs, hlast⟩
    · have hinv' : ∀ g, (stepPair uid st ev).lastInbound = some g →
          g.ts ≠ none ∧ ∀ x ∈ rest, tsVal g ≤ tsVal x := by
        intro g hg
        rcases hlast with h | h
        · rw [h] at hg
          cases hg
          exact ⟨hvEv, hevLe⟩
        · rw [h] at hg
          obtain ⟨h1, h2⟩ := hinv g hg
          exact ⟨h1, fun x hx => h2 x (by simp [hx])⟩
      obtain ⟨c1, c2⟩ := ih (stepPair uid st ev) hvRest hsRest hinv'
      constructor
      · refine c1.trans ?_
        rw [hpairs]
        have : (rest.filter (fun e => e.direction == "out")).length ≤
            ((ev :: rest).filter (fun e => e.direction == "out")).length := by
          rw [List.filter_cons]
          split <;> simp
        omega
      · intro p hp
        rcases c2 p hp with h | h
        · rw [hpairs] at h
          exact Or.inl h
        · exact Or.inr h
    · obtain ⟨hfts, hfle⟩ := hinv f hLI
      have hinv' : ∀ g, (stepPair uid st ev).lastInbound = some g →
          g.ts ≠ none ∧ ∀ x ∈ rest, tsVal g ≤ tsVal x := by
        intro g hg
        rw [hlast] at hg
        cases hg
      obtain ⟨c1, c2⟩ := ih (stepPair uid st ev) hvRest hsRest hinv'
      have hgood : GoodPair (mkPair uid f ev) := by
        obtain ⟨a, ha⟩ := Option.ne_none_iff_exists'.mp hfts
        obtain ⟨b, hb⟩ := Option.ne_none_iff_exists'.mp hvEv
        refine ⟨a, b, ha, hb, ?_, ?_⟩
        · have := hfle ev (by simp)
          simpa [tsVal, ha, hb] using this
        · simp [mkPair, durMs, ha, hb]
      constructor
      · refine c1.trans ?_
        rw [hpairs]
        have : ((ev :: rest).filter (fun e => e.direction == "out")).length =
            (rest.filter (fun e => e.direction == "out")).length + 1 := by
          rw [List.filter_cons]
          simp [hout]
        simp only [List.length_append, List.length_cons, List.length_nil]
        omega
      · intro p hp
        rcases c2 p hp with h | h
        · rw [hpairs] at h
          rcases List.mem_append.mp h with h | h
          · exact Or.inl h
          · simp only [List.mem_singleton] at h
            subst h
            exact Or.inr hgood
        · exact Or.inr h

/-- Claim C6: over a single user's chronologically sorted,
valid-timestamp event list, the pairer emits at most one pair per
out-directed event, and every pair has parsed timestamps with
out ≥ in and duration `max 0 (out − in)`. -/
theorem pairer_bounds (uid : String) (evs : List NEvent)
    (hvalid : ∀ e ∈ evs, e.ts ≠ none)
    (hsorted : evs.Pairwise (fun a b => tsVal a ≤ tsVal b)) :
    (runPair uid evs).pairs.length ≤
      (evs.filter (fun e => e.direction == "out")).length ∧
    ∀ p ∈ (runPair uid evs).pairs, ∃ a b : Int,
      p.inEv.ts = some a ∧ p.outEv.ts = some b ∧ a ≤ b ∧
      p.totalMs = some (max 0 (b - a)).toNat := by
  obtain ⟨c1, c2⟩ := runPair_fold_invariant uid evs ⟨none, [], []⟩ hvalid hsorted
    (by intro f hf; cases hf)
  refine ⟨by simpa using c1, ?_⟩
  intro p hp
  rcases c2 p hp with h | h
  · cases h
  · exact h

/-- Witness for C6 at a concrete two-event in/out sequence. -/
theorem pairer_bounds_witness :
    (runPair "u1" [nInEv "a" 10, nOutEv "c" 30]).pairs.length ≤
      ([nInEv "a" 10, nOutEv "c" 30].filter (fun e => e.direction == "out")).length ∧
    ∀ p ∈ (runPair "u1" [nInEv "a" 10, nOutEv "c" 30]).pairs, ∃ a b : Int,
      p.inEv.ts = some a ∧ p.outEv.ts = some b ∧ a ≤ b ∧
      p.totalMs = some (max 0 (b - a)).toNat :=
  pairer_bounds "u1" [nInEv "a" 10, nOutEv "c" 30] (by decide)
    (by simp [List.pairwise_cons, tsVal, nInEv, nOutEv])

/-- The comparator is antisymmetric as a function: swapping the arguments
negates its value. -/
theorem userCmp_antisymm (a b : UserReport) : userCmp b a = - userCmp a b := by
  unfold userCmp
  cases ha : a.totalMs with
  | none => cases hb : b.totalMs <;> simp
  | some x =>
    cases hb : b.totalMs with
    | none => simp
    | some y =>
      by_cases hxy : x = y
      · subst hxy
        simp
        try omega
      · have : y ≠ x := fun h => hxy h.symm
        simp [hxy, this]
        try omega

/-- The induced order is total: one of the two directions always holds. -/
theorem userLe_total (a b : UserReport) : userLe a b = true ∨ userLe b a = true := by
  unfold userLe
  rcases le_or_lt (userCmp a b) 0 with h | h
  · left
    simpa using h
  · right
    rw [decide_eq_true_iff, userCmp_antisymm]
    omega

/-- The induced order is transitive on rows whose totals are numeric (the
ECMAScript consistency precondition of the comparator). -/
theorem userLe_trans (a b c : UserReport)
    (ha : a.totalMs ≠ none) (hb : b.totalMs ≠ none) (hc : c.totalMs ≠ none)
    (h1 : userLe a b = true) (h2 : userLe b c = true) : userLe a c = true := by
  obtain ⟨x, hx⟩ := Option.ne_none_iff_exists'.mp ha
  obtain ⟨y, hy⟩ := Option.ne_none_iff_exists'.mp hb
  obtain ⟨z, hz⟩ := Option.ne_none_iff_exists'.mp hc
  unfold userLe userCmp at h1 h2 ⊢
  rw [hx, hy] at h1
  rw [hy, hz] at h2
  rw [hx, hz]
  rw [decide_eq_true_iff] at h1 h2 ⊢
  dsimp only at h1 h2 ⊢
  split_ifs at h1 h2 ⊢ <;> omega

/-- Rows with equal sort keys compare as equal (comparator value 0), so
either is allowed to precede the other. -/
theorem userLe_of_keyEq (a b : UserReport) (h : keyOf a = keyOf b) : userLe a b = true := by
  have h1 : a.totalMs = b.totalMs := congrArg Prod.fst h
  have h2 : a.violations.length = b.violations.length := congrArg Prod.snd h
  unfold userLe userCmp
  rw [decide_eq_true_iff, ← h1]
  cases ha : a.totalMs with
  | none => simp
  | some x => simp [h2]

/-- Membership in a stable insertion. -/
theorem mem_insUser (a x : UserReport) :
    ∀ l, x ∈ insUser a l ↔ x = a ∨ x ∈ l := by
  intro l
  induction l with
  | nil => simp [insUser]
  | cons b t ih =>
    by_cases hle : userLe a b = true <;>
      simp [insUser, hle, ih] <;> tauto

/-- Stable insertion permutes. -/
theorem insUser_perm (a : UserReport) :
    ∀ l, List.Perm (insUser a l) (a :: l) := by
  intro l
  induction l with
  | nil => simp [insUser]
  | cons b t ih =>
    by_cases hle : userLe a b = true
    · simp [insUser, hle]
    · simp only [insUser, hle, if_neg, Bool.false_eq_true, not_false_iff]
      exact (ih.cons b).trans (List.Perm.swap a b t)

/-- The stable sort permutes its input. -/
theorem sortResults_perm (rs : List UserReport) :
    List.Perm (sortResults rs) rs := by
  induction rs with
  | nil => simp [sortResults]
  | cons x xs ih =>
    exact (insUser_perm x (sortResults xs)).trans (ih.cons x)

/-- Stable insertion preserves sortedness (on numeric-total rows). -/
theorem insUser_pairwise (a : UserReport) :
    ∀ l, (∀ x ∈ a :: l, x.totalMs ≠ none) →
      l.Pairwise (fun x y => userLe x y = true) →
      (insUser a l).Pairwise (fun x y => userLe x y = true) := by
  intro l
  induction l with
  | nil => intro _ _; simp [insUser]
  | cons b t ih =>
    intro hval hp
    obtain ⟨hb, ht⟩ := List.pairwise_cons.mp hp
    by_cases hle : userLe a b = true
    · simp only [insUser, hle, if_pos]
      refine List.pairwise_cons.mpr ⟨?_, hp⟩
      intro x hx
      rcases List.mem_cons.mp hx with rfl | hx
      · exact hle
      · exact userLe_trans a b x (hval a (by simp)) (hval b (by simp))
          (hval x (by simp [hx])) hle (hb x hx)
    · simp only [insUser, hle, if_neg, Bool.false_eq_true, not_false_iff]
      have hval' : ∀ x ∈ a :: t, x.totalMs ≠ none := by
        intro x hx
        rcases List.mem_cons.mp hx with rfl | hx
        · exact hval x (by simp)
        · exact hval x (by simp [hx])
      refine List.pairwise_cons.mpr ⟨?_, ih hval' ht⟩
      intro x hx
      rcases (mem_insUser a x t).mp hx with rfl | hx
      · rcases userLe_total x b with h | h
        · exact absurd h hle
        · exact h
      · exact hb x hx

/-- The stable sort's output is sorted by the comparator (on numeric-total
rows). -/
theorem sortResults_pairwise (rs : List UserReport)
    (hval : ∀ r ∈ rs, r.totalMs ≠ none) :
    (sortResults rs).Pairwise (fun x y => userLe x y = true) := by
  induction rs with
  | nil => simp [sortResults]
  | cons x xs ih =>
    have hvx : ∀ r ∈ xs, r.totalMs ≠ none := fun r hr => hval r (by simp [hr])
    show (insUser x (sortResults xs)).Pairwise _
    refine insUser_pairwise x (sortResults xs) ?_ (ih hvx)
    intro y hy
    rcases List.mem_cons.mp hy with rfl | hy
    · exact hval y (by simp)
    · exact hvx y ((sortResults_perm xs).mem_iff.mp hy)

/-- On numeric-total rows, the comparator order is exactly the claimed
lexicographic one: strictly larger total first, equal totals broken by
violation count descending. -/
theorem userLe_iff_lex (a b : UserReport)
    (ha : a.totalMs ≠ none) (hb : b.totalMs ≠ none) :
    userLe a b = true ↔
      (b.totalMs.getD 0 < a.totalMs.getD 0 ∨
        (a.totalMs = b.totalMs ∧ b.violations.length ≤ a.violations.length)) := by
  obtain ⟨x, hx⟩ := Option.ne_none_iff_exists'.mp ha
  obtain ⟨y, hy⟩ := Option.ne_none_iff_exists'.mp hb
  unfold userLe userCmp
  rw [hx, hy, decide_eq_true_iff]
  simp only [Option.getD_some, Option.some.injEq]
  by_cases hxy : x = y
  · subst hxy
    simp
    try omega
  · simp [hxy]
    try omega

/-- Inserting a row never disturbs the relative order of rows with any
given key: the key-filtered output of an insertion is the inserted row
(when its key matches) followed by the key-filtered rest. -/
theorem insUser_filter_key (a : UserReport) (k : Option Nat × Nat) :
    ∀ l, (insUser a l).filter (fun r => decide (keyOf r = k))
      = if keyOf a = k then a :: l.filter (fun r => decide (keyOf r = k))
        else l.filter (fun r => decide (keyOf r = k)) := by
  intro l
  induction l with
  | nil =>
    simp only [insUser, List.filter]
    split <;> simp_all
  | cons b t ih =>
    by_cases hle : userLe a b = true
    · simp only [insUser, hle, if_pos]
      rw [List.filter_cons, List.filter_cons]
      by_cases hka : keyOf a = k <;> by_cases hkb : keyOf b = k <;>
        simp [hka, hkb, List.filter_cons]
    · simp only [insUser, hle, if_neg, Bool.false_eq_true, not_false_iff]
      rw [List.filter_cons, ih, List.filter_cons]
      by_cases hka : keyOf a = k <;> by_cases hkb : keyOf b = k
      · exact absurd (userLe_of_keyEq a b (hka.trans hkb.symm)) hle
      · simp [hka, hkb]
      · simp [hka, hkb]
      · simp [hka, hkb]

/-- Stability of the whole sort: for every key, the key-filtered output
equals the key-filtered input, so rows tied on both keys keep their
insertion order. -/
theorem sortResults_filter_key (k : Option Nat × Nat) (rs : List UserReport) :
    (sortResults rs).filter (fun r => decide (keyOf r = k))
      = rs.filter (fun r => decide (keyOf r = k)) := by
  induction rs with
  | nil => rfl
  | cons x xs ih =>
    show ((insUser x (sortResults xs)).filter _) = _
    rw [insUser_filter_key, List.filter_cons]
    by_cases hx : keyOf x = k <;> simp [hx, ih]

/-- Claim C8: the final report list is the input permuted into descending
total-duration order, ties broken by descending violation count, with
rows tied on both keys keeping their original (grouping insertion) order;
in particular, at equal totals a row with 2 violations precedes one with
0 violations. -/
theorem results_ordering (rs : List UserReport)
    (hval : ∀ r ∈ rs, r.totalMs ≠ none) :
    List.Perm (sortResults rs) rs ∧
    (sortResults rs).Pairwise (fun a b =>
      b.totalMs.getD 0 < a.totalMs.getD 0 ∨
        (a.totalMs = b.totalMs ∧ b.violations.length ≤ a.violations.length)) ∧
    (∀ k, (sortResults rs).filter (fun r => decide (keyOf r = k))
      = rs.filter (fun r => decide (keyOf r = k))) ∧
    sortResults [userRowA, userRowB] = [userRowB, userRowA] := by
  refine ⟨sortResults_perm rs, ?_, fun k => sortResults_filter_key k rs, by decide⟩
  have hval' : ∀ r ∈ sortResults rs, r.totalMs ≠ none :=
    fun r hr => hval r ((sortResults_perm rs).mem_iff.mp hr)
  refine (sortResults_pairwise rs hval).imp_of_mem ?_
  intro a b hma hmb hle
  exact (userLe_iff_lex a b (hval' a hma) (hval' b hmb)).mp hle

/-- Witness for C8 at the concrete equal-total pair of rows. -/
theorem results_ordering_witness :
    List.Perm (sortResults [userRowA, userRowB]) [userRowA, userRowB] ∧
    (sortResults [userRowA, userRowB]).Pairwise (fun a b =>
      b.totalMs.getD 0 < a.totalMs.getD 0 ∨
        (a.totalMs = b.totalMs ∧ b.violations.length ≤ a.violations.length)) ∧
    (∀ k, (sortResults [userRowA, userRowB]).filter (fun r => decide (keyOf r = k))
      = [userRowA, userRowB].filter (fun r => decide (keyOf r = k))) ∧
    sortResults [userRowA, userRowB] = [userRowB, userRowA] :=
  results_ordering [userRowA, userRowB] (by decide)

end Breakroom
